import Mathlib

/-!
# TaskFlow — verification of the real-time synchronization core

A shallow embedding, in Lean 4, of the parts of the TaskFlow source that the
specification's claims are about:

* the client-side reconciling state store (`src/store/taskStore.ts`):
  `createTask`, `updateTask`, `deleteTask`, `moveTask` — optimistic apply,
  success reconciliation, rollback;
* the server deadline scheduler (`checkDeadlines` in the server entry file);
* the server socket handlers (`join_board`, `join_user`);
* the Mongoose `Notification` schema (its declared indexes).

JavaScript objects used as string-keyed maps are embedded as association
lists (`List (String × v)`) preserving JS insertion-order semantics:
`{...m, [k]: v}` replaces in place when `k` is present and appends otherwise,
`delete m[k]` removes the binding.  `Array.prototype.splice(i, 0, x)` inserts
at `i`, appending when `i ≥ length` — embedded as `jsSplice`.  Dates are
epoch milliseconds (`Int`).
-/

namespace TaskFlow

/-- A task as held by the client store's `tasks` record
(`src/types/task.ts` / `taskStore.ts`).  Only the fields the store logic
reads or writes are embedded; the object spreads (`{...task, ...}`) copy the
rest unchanged, so omitting them does not affect any claim.  `status` mirrors
the server's column field; the optimistic task created by `createTask` has no
`status` property, hence `Option`. -/
structure Task where
  id : String
  boardId : String
  columnId : String
  status : Option String
  title : String
  deriving Repr, DecidableEq

/-- A board column (`Column` in `src/types/task.ts`): `taskIds` is the
ordered list defining intra-column order. -/
structure Column where
  id : String
  title : String
  taskIds : List String
  position : Nat
  deriving Repr, DecidableEq

/-- A board as projected by the client store. -/
structure Board where
  id : String
  title : String
  columns : List Column
  deriving Repr, DecidableEq

/-- The JS object `state.tasks : Record<string, Task>` as an association
list in insertion order. -/
abbrev TaskMap := List (String × Task)

/-- The slice of the zustand store state that the claims are about:
the projection (`tasks` map plus `boards`). -/
structure StoreState where
  tasks : TaskMap
  boards : List Board
  deriving Repr, DecidableEq

/-- JS property read `m[k]` (first binding wins; JS objects have unique
keys, which the embedding's operations preserve). -/
def lookupTask (m : TaskMap) (k : String) : Option Task :=
  (m.find? (fun p => p.1 == k)).map Prod.snd

/-- JS spread-update `{...m, [k]: v}`: replace in place when the key is
present, append otherwise. -/
def setTask (m : TaskMap) (k : String) (v : Task) : TaskMap :=
  if m.any (fun p => p.1 == k) then
    m.map (fun p => if p.1 == k then (k, v) else p)
  else m ++ [(k, v)]

/-- JS `delete m[k]`. -/
def eraseTask (m : TaskMap) (k : String) : TaskMap :=
  m.filter (fun p => p.1 != k)

/-- JS `arr.splice(i, 0, a)`: insert `a` at index `i`, appending when
`i ≥ arr.length`. -/
def jsSplice (l : List String) (i : Nat) (a : String) : List String :=
  l.take i ++ a :: l.drop i

/-! ## moveTask (taskStore.ts, lines 402–466)

The optimistic part of `moveTask(taskId, sourceStatus, destStatus,
destIndex)`: the columns array of the task's board is fully rebuilt and
applied together with the task's `columnId`/`status` update in ONE `set`
call, so the embedded `moveTaskLocal` is a single state transition by
construction.  When the task id is not in the map the JS code throws on
`task.boardId` before any `set` (projection unchanged); when the board is
not found it returns early — both embed as the identity. -/

/-- The body of the `columns.map` callback inside `moveTask`: same-column
reorder, removal from the source column, duplicate-safe insertion into the
destination column, all other columns untouched. -/
def moveColumnStep (taskId src dst : String) (destIndex : Nat)
    (col : Column) : Column :=
  if col.id == src && col.id == dst then
    { col with taskIds :=
        jsSplice (col.taskIds.filter (fun id => id != taskId)) destIndex taskId }
  else if col.id == src then
    { col with taskIds := col.taskIds.filter (fun id => id != taskId) }
  else if col.id == dst then
    { col with taskIds :=
        jsSplice (col.taskIds.filter (fun id => id != taskId)) destIndex taskId }
  else col

/-- The per-column rebuild inside `moveTask`'s `boards.map`. -/
def moveColumns (taskId src dst : String) (destIndex : Nat)
    (cols : List Column) : List Column :=
  cols.map (moveColumnStep taskId src dst destIndex)

/-- The single optimistic `set` of `moveTask`: new boards plus the moved
task's `columnId`/`status` both set to the destination. -/
def moveTaskLocal (s : StoreState) (taskId src dst : String)
    (destIndex : Nat) : StoreState :=
  match lookupTask s.tasks taskId with
  | none => s
  | some task =>
    match s.boards.find? (fun b => b.id == task.boardId) with
    | none => s
    | some _ =>
      { tasks := setTask s.tasks taskId
          { task with columnId := dst, status := some dst },
        boards := s.boards.map (fun b =>
          if b.id != task.boardId then b
          else { b with columns := moveColumns taskId src dst destIndex b.columns }) }

/-- The pure list transformation of `moveColumnStep`, as a function of the
column id and the `taskIds` list alone. -/
def moveIds (taskId src dst : String) (destIndex : Nat)
    (cid : String) (l : List String) : List String :=
  if cid == src && cid == dst then
    jsSplice (l.filter (fun id => id != taskId)) destIndex taskId
  else if cid == src then
    l.filter (fun id => id != taskId)
  else if cid == dst then
    jsSplice (l.filter (fun id => id != taskId)) destIndex taskId
  else l

/-- The body of the `boards.map` callback inside `moveTask`'s single `set`. -/
def moveBoardStep (taskId src dst : String) (i : Nat) (bid : String)
    (b : Board) : Board :=
  if b.id != bid then b
  else { b with columns := moveColumns taskId src dst i b.columns }

/-! ## Durable-write outcomes

The spec's error taxonomy for durable-write failures (`network`,
`not_authorized`, `not_found`, §7).  The client code itself types every
failure as a bare `Error` (`catch (error: any)`), so the handlers below are
independent of `kind`; the taxonomy is carried so that claims about
per-kind behaviour can be stated. -/

inductive ErrorKind
  | network
  | notAuthorized
  | notFound
  deriving Repr, DecidableEq

structure ApiError where
  kind : ErrorKind
  message : String
  deriving Repr, DecidableEq

/-- The deferred write issued by `moveTask` (`api.updateTask` inside the
`setTimeout`) together with its completion handling: on success nothing more
is set; on ANY error the catch block runs
`set({ tasks: originalState.tasks, boards: originalState.boards, error })`
plus a toast — no board refetch.  The `Bool` component records whether a
full board refetch was issued (the catch block contains none). -/
def moveTaskRun (s : StoreState) (taskId src dst : String) (i : Nat)
    (writeResult : Except ApiError Unit) : StoreState × Bool :=
  match writeResult with
  | .ok _ => (moveTaskLocal s taskId src dst i, false)
  | .error _ => ({ tasks := s.tasks, boards := s.boards }, false)

/-! ## createTask (taskStore.ts, lines 279–356) -/

/-- The argument object of `createTask(data)` (the fields the store logic
reads; the rest are spread through unchanged). -/
structure CreateData where
  boardId : String
  columnId : String
  title : String
  deriving Repr, DecidableEq

/-- The optimistic task `{...data, id: tempId, columnId: data.columnId,
createdAt, updatedAt}`; `data` carries no `status`, so the optimistic task
has none. -/
def optimisticTask (d : CreateData) (tempId : String) : Task :=
  { id := tempId, boardId := d.boardId, columnId := d.columnId,
    status := none, title := d.title }

/-- The server's `response.data` for a successful create. -/
structure ServerTask where
  _id : String
  boardId : String
  status : String
  title : String
  deriving Repr, DecidableEq

/-- `{...response.data, id: response.data._id || response.data.id,
columnId: response.data.status}`. -/
def serverTask (resp : ServerTask) : Task :=
  { id := resp._id, boardId := resp.boardId, columnId := resp.status,
    status := some resp.status, title := resp.title }

/-- Optimistic column update: append `tempId` at the tail of the target
column (`c.id === data.columnId ? {...c, taskIds: [...c.taskIds, tempId]} : c`). -/
def createTaskColumnAdd (tempId cid : String) (c : Column) : Column :=
  if c.id == cid then { c with taskIds := c.taskIds ++ [tempId] } else c

/-- Rollback column update: `{...c, taskIds: c.taskIds.filter(id => id !== tempId)}`
applied to EVERY column of the board. -/
def createTaskColumnRemove (tempId : String) (c : Column) : Column :=
  { c with taskIds := c.taskIds.filter (fun id => id != tempId) }

/-- Success column update: in-place id swap
`{...c, taskIds: c.taskIds.map(id => id === tempId ? newTask.id : id)}`. -/
def createTaskColumnSwap (tempId newId cid : String) (c : Column) : Column :=
  if c.id == cid then
    { c with taskIds := c.taskIds.map (fun id => if id == tempId then newId else id) }
  else c

def createBoardAdd (d : CreateData) (tempId : String) (b : Board) : Board :=
  if b.id != d.boardId then b
  else { b with columns := b.columns.map (createTaskColumnAdd tempId d.columnId) }

def createBoardRemove (d : CreateData) (tempId : String) (b : Board) : Board :=
  if b.id != d.boardId then b
  else { b with columns := b.columns.map (createTaskColumnRemove tempId) }

def createBoardSwap (bid cid tempId newId : String) (b : Board) : Board :=
  if b.id != bid then b
  else { b with columns := b.columns.map (createTaskColumnSwap tempId newId cid) }

/-- The optimistic `set` of `createTask`: insert the temp task into the map
and append its id at the tail of the target column. -/
def createTaskOptimistic (s : StoreState) (d : CreateData)
    (tempId : String) : StoreState :=
  { tasks := setTask s.tasks tempId (optimisticTask d tempId),
    boards := s.boards.map (createBoardAdd d tempId) }

/-- The success `set` of `createTask`: `delete newTasks[tempId];
newTasks[newTask.id] = newTask`, and the in-place id swap in the column
lists of the board `newTask.boardId`, column `newTask.columnId`. -/
def createTaskSuccess (s : StoreState) (tempId : String)
    (resp : ServerTask) : StoreState :=
  { tasks := setTask (eraseTask s.tasks tempId) (serverTask resp).id (serverTask resp),
    boards := s.boards.map
      (createBoardSwap (serverTask resp).boardId (serverTask resp).columnId
        tempId (serverTask resp).id) }

/-- The failure `set` of `createTask`: remove the temp task from the map and
filter its id out of every column of the board `data.boardId`. -/
def createTaskRollback (s : StoreState) (d : CreateData)
    (tempId : String) : StoreState :=
  { tasks := eraseTask s.tasks tempId,
    boards := s.boards.map (createBoardRemove d tempId) }

/-- `createTask` end to end: optimistic apply, then reconcile or roll back on
the durable write's result.  The `Bool` records whether a full board refetch
was issued (neither branch contains one). -/
def createTaskRun (s : StoreState) (d : CreateData) (tempId : String)
    (writeResult : Except ApiError ServerTask) : StoreState × Bool :=
  let s1 := createTaskOptimistic s d tempId
  match writeResult with
  | .ok resp => (createTaskSuccess s1 tempId resp, false)
  | .error _ => (createTaskRollback s1 d tempId, false)

/-- `x` occurs nowhere in the projection: not a key of the `tasks` map and
in no column's `taskIds` list. -/
def freshIdB (s : StoreState) (x : String) : Bool :=
  (!(s.tasks.any (fun p => p.1 == x))) &&
    s.boards.all (fun b => b.columns.all (fun c => !(c.taskIds.contains x)))

/-! ## updateTask and deleteTask (taskStore.ts, lines 359–400)

Both operations `await` the durable write FIRST and only then run `set` on
the local projection; the catch block sets `error` only (no projection
change, no rollback — there is nothing to roll back). -/

/-- The partial `updates` object of `updateTask(taskId, updates)` (modelled
for the embedded fields; absent fields leave the task's value). -/
structure TaskUpdates where
  columnId : Option String := none
  title : Option String := none
  deriving Repr, DecidableEq

/-- The merge `{...state.tasks[taskId], ...updates}`. -/
def applyUpdates (t : Task) (u : TaskUpdates) : Task :=
  { t with columnId := u.columnId.getD t.columnId,
           title := u.title.getD t.title }

/-- `updateTask`: durable write first; the projection changes only on
success.  A missing task id embeds as the identity. -/
def updateTaskRun (s : StoreState) (taskId : String) (u : TaskUpdates)
    (writeResult : Except ApiError Unit) : StoreState :=
  match writeResult with
  | .error _ => s
  | .ok _ =>
    match lookupTask s.tasks taskId with
    | none => s
    | some t => { s with tasks := setTask s.tasks taskId (applyUpdates t u) }

/-- The board update in `deleteTask`'s success `set`: drop the id from every
column of the task's board. -/
def deleteBoardStep (taskId bid : String) (b : Board) : Board :=
  if b.id != bid then b
  else { b with columns := b.columns.map (fun c =>
    { c with taskIds := c.taskIds.filter (fun id => id != taskId) }) }

/-- `deleteTask`: reads the task, awaits the durable delete, and only on
success removes the task from the map and from every column of its board. -/
def deleteTaskRun (s : StoreState) (taskId : String)
    (writeResult : Except ApiError Unit) : StoreState :=
  match lookupTask s.tasks taskId with
  | none => s
  | some task =>
    match writeResult with
    | .error _ => s
    | .ok _ =>
      { tasks := eraseTask s.tasks taskId,
        boards := s.boards.map (deleteBoardStep taskId task.boardId) }

/-! ## Observable event order of the four mutation intents

Each mutation's sequence of observable steps, in the statement order of the
source: `localUpdate` is a `set` that changes the projection,
`durableWrite` is the API call issuing the durable write. -/

inductive StoreEvent
  | localUpdate
  | durableWrite
  deriving Repr, DecidableEq

/-- `createTask`: optimistic `set`; `api.createTask`; then a `set` for
either the temp-id swap (success) or the rollback (failure). -/
def createTaskEvents : List StoreEvent :=
  [StoreEvent.localUpdate, StoreEvent.durableWrite, StoreEvent.localUpdate]

/-- `moveTask`: single optimistic `set`; deferred `api.updateTask`; a
rollback `set` only when the write fails. -/
def moveTaskEvents (fails : Bool) : List StoreEvent :=
  [StoreEvent.localUpdate, StoreEvent.durableWrite]
    ++ (if fails then [StoreEvent.localUpdate] else [])

/-- `updateTask`: `await api.updateTask(...)` comes first; the projection
`set` runs only after a successful response (the catch sets `error` only). -/
def updateTaskEvents (fails : Bool) : List StoreEvent :=
  [StoreEvent.durableWrite] ++ (if fails then [] else [StoreEvent.localUpdate])

/-- `deleteTask`: `await api.deleteTask(...)` comes first; the projection
`set` runs only after a successful response. -/
def deleteTaskEvents (fails : Bool) : List StoreEvent :=
  [StoreEvent.durableWrite] ++ (if fails then [] else [StoreEvent.localUpdate])

/-- Index of the first occurrence of an event in a trace. -/
def firstIdx (e : StoreEvent) : List StoreEvent → Option Nat
  | [] => none
  | x :: xs => if x == e then some 0 else (firstIdx e xs).map (· + 1)

/-- The trace applies a local (optimistic) projection change strictly before
issuing the durable write. -/
def optimisticFirst (tr : List StoreEvent) : Bool :=
  match firstIdx StoreEvent.localUpdate tr, firstIdx StoreEvent.durableWrite tr with
  | some i, some j => decide (i < j)
  | _, _ => false

/-! ## Column-partition invariant (claim C1) -/

/-- Number of occurrences of a task id across all column lists of a board. -/
def occInBoard (b : Board) (tid : String) : Nat :=
  (b.columns.map (fun c => c.taskIds.count tid)).sum

/-- Every task of the projection occurs in exactly one column list of each
board carrying its `boardId`. -/
def tasksPartitionedB (s : StoreState) : Bool :=
  s.tasks.all (fun p => s.boards.all (fun b =>
    !(b.id == p.2.boardId) || (occInBoard b p.1 == 1)))

/-- No duplicate ids in a list (used for column ids within a board). -/
def nodupIds : List String → Bool
  | [] => true
  | x :: xs => !(xs.contains x) && nodupIds xs

/-- Column ids are pairwise distinct within every board. -/
def colIdsNodupB (s : StoreState) : Bool :=
  s.boards.all (fun b => nodupIds (b.columns.map (fun c => c.id)))

/-- A `moveTask` call is well-sourced in state `s`: either it is a no-op
(unknown task / board), or, in every board carrying the task's `boardId`,
the columns containing the task all have id `src` and a column with id
`dst` exists. -/
def validMoveB (s : StoreState) (taskId src dst : String) : Bool :=
  match lookupTask s.tasks taskId with
  | none => true
  | some t =>
    match s.boards.find? (fun b => b.id == t.boardId) with
    | none => true
    | some _ =>
      s.boards.all (fun b => !(b.id == t.boardId) ||
        (b.columns.all (fun c => !(c.taskIds.contains taskId) || (c.id == src))
          && b.columns.any (fun c => c.id == dst)))

structure MoveCall where
  taskId : String
  src : String
  dst : String
  destIndex : Nat
  deriving Repr, DecidableEq

def applyMove (s : StoreState) (c : MoveCall) : StoreState :=
  moveTaskLocal s c.taskId c.src c.dst c.destIndex

def applyMoves (s : StoreState) : List MoveCall → StoreState
  | [] => s
  | c :: cs => applyMoves (applyMove s c) cs

/-- Every call of the sequence is well-sourced in the state it runs in. -/
def validSeqB (s : StoreState) : List MoveCall → Bool
  | [] => true
  | c :: cs => validMoveB s c.taskId c.src c.dst && validSeqB (applyMove s c) cs

/-- Navigate to a column's `taskIds` list (first board with the given id,
first column with the given id — ids are unique in real states). -/
def colTaskIds (s : StoreState) (bid cid : String) : Option (List String) :=
  match s.boards.find? (fun b => b.id == bid) with
  | none => none
  | some b =>
    match b.columns.find? (fun c => c.id == cid) with
    | none => none
    | some c => some c.taskIds

/-! ## Notification schema (server/models/Notification.js, claim C5) -/

structure SchemaIndex where
  keys : List (String × Int)
  unique : Bool
  deriving Repr, DecidableEq

structure MongooseSchema where
  fields : List String
  indexes : List SchemaIndex
  deriving Repr, DecidableEq

/-- The Mongoose Notification schema: fields `userId` (required), `message`
(required), `type` (required, closed enum), `boardId`, `taskId`, `read`,
plus `timestamps`.  Declared indexes: the implicit unique primary key on
`_id`, and the explicit `notificationSchema.index({ userId: 1,
createdAt: -1 })` query index, which is NOT declared `unique`.  No field
carries `unique: true` and no compound unique index is declared. -/
def notificationSchema : MongooseSchema :=
  { fields := ["userId", "message", "type", "boardId", "taskId", "read",
      "createdAt", "updatedAt"],
    indexes := [ { keys := [("_id", 1)], unique := true },
                 { keys := [("userId", 1), ("createdAt", -1)], unique := false } ] }

/-- The schema enforces a uniqueness constraint on exactly the given key
set: some declared index is unique and its keys are exactly `names`. -/
def enforcesUniqueOn (sch : MongooseSchema) (names : List String) : Bool :=
  sch.indexes.any (fun ix => ix.unique
    && names.all (fun n => ix.keys.any (fun k => k.1 == n))
    && ix.keys.all (fun k => names.contains k.1))

/-! ## Deadline scheduler (server entry file, claims C6/C7)

`checkDeadlines`: query tasks with `dueDate` in `[now, now + 24h]` and
`status != 'done'` (with the board reference populated), then for each task
look up an existing `task_deadline` notification for `(task.userId,
task._id)` and create + emit one only when none exists and the populated
board is present.  The WHOLE loop is wrapped in one `try/catch`.  The query
and the iteration are sequential `await`s, embedded as a fold over the
query's result list; `tomorrow = now + 1 day` is embedded as
`now + 86400000` ms. -/

structure SBoard where
  _id : String
  name : String
  deriving Repr, DecidableEq

/-- A server Task document as used by the scheduler (with `boardId`
populated; `none` when the referenced board no longer exists). -/
structure STask where
  _id : String
  userId : String
  title : String
  status : String
  dueDate : Option Int
  boardId : Option SBoard
  deriving Repr, DecidableEq

structure SNotification where
  userId : String
  message : String
  type : String
  boardId : Option String
  taskId : Option String
  read : Bool
  deriving Repr, DecidableEq

/-- The scheduler's query filter:
`dueDate: { $gte: now, $lte: tomorrow }, status: { $ne: 'done' }`. -/
def qualifies (now : Int) (t : STask) : Bool :=
  match t.dueDate with
  | none => false
  | some d => decide (now ≤ d) && decide (d ≤ now + 86400000) && t.status != "done"

def deadlineMessage (t : STask) (b : SBoard) : String :=
  "Deadline approaching: \"" ++ t.title ++ "\" in board \"" ++ b.name
    ++ "\" is due within 24 hours!"

/-- `Notification.findOne({ userId, taskId, type: 'task_deadline' })`. -/
def hasDeadlineNotif (ns : List SNotification) (uid tid : String) : Bool :=
  ns.any (fun n => n.userId == uid && n.taskId == some tid
    && n.type == "task_deadline")

def mkDeadlineNotif (t : STask) (b : SBoard) : SNotification :=
  { userId := t.userId, message := deadlineMessage t b,
    type := "task_deadline", boardId := some b._id, taskId := some t._id,
    read := false }

/-- One loop iteration: `if (!existing && task.boardId) { create( ... ) }`. -/
def processTask (ns : List SNotification) (t : STask) : List SNotification :=
  if !(hasDeadlineNotif ns t.userId t._id) then
    match t.boardId with
    | some b => ns ++ [mkDeadlineNotif t b]
    | none => ns
  else ns

/-- One scheduler tick over the persisted notification list. -/
def checkDeadlines (now : Int) (tasks : List STask)
    (ns : List SNotification) : List SNotification :=
  (tasks.filter (qualifies now)).foldl processTask ns

/-- The loop with per-item failure flags: the single tick-level `catch`
means a throwing iteration ends the whole loop. -/
def runTickItems : List (STask × Bool) → List SNotification → List SNotification
  | [], ns => ns
  | (t, fails) :: rest, ns =>
    if fails then ns else runTickItems rest (processTask ns t)

/-- A tick in which processing the flagged tasks throws (in `findOne`,
`create` or the emit); the tick-level `catch` logs and returns. -/
def checkDeadlinesWithFailures (now : Int) (tasks : List (STask × Bool))
    (ns : List SNotification) : List SNotification :=
  runTickItems (tasks.filter (fun p => qualifies now p.1)) ns

def countDeadline (ns : List SNotification) (uid tid : String) : Nat :=
  (ns.filter (fun n => n.userId == uid && n.taskId == some tid
    && n.type == "task_deadline")).length

/-! ## Socket room handling (server entry file, claim C8) -/

/-- Room membership map: room name to joined socket ids. -/
structure RoomState where
  rooms : List (String × List String)
  deriving Repr, DecidableEq

/-- `socket.join(room)`: add the socket to the room (idempotent set-add). -/
def joinRoom (rs : RoomState) (room sid : String) : RoomState :=
  if rs.rooms.any (fun p => p.1 == room) then
    { rooms := rs.rooms.map (fun p =>
        if p.1 == room then
          (p.1, if p.2.contains sid then p.2 else p.2 ++ [sid])
        else p) }
  else { rooms := rs.rooms ++ [(room, [sid])] }

def inRoom (rs : RoomState) (room sid : String) : Bool :=
  rs.rooms.any (fun p => p.1 == room && p.2.contains sid)

/-- The `join_board` handler: `socket.on('join_board', (boardId) =>
socket.join('board:' + boardId))`.  It performs no database lookup and no
membership or authentication check of any kind — its result does not depend
on who owns the socket or on any board data. -/
def handleJoinBoard (rs : RoomState) (sid boardId : String) : RoomState :=
  joinRoom rs ("board:" ++ boardId) sid

/-- The `join_user` handler (same shape: no verification). -/
def handleJoinUser (rs : RoomState) (sid userId : String) : RoomState :=
  joinRoom rs ("user:" ++ userId) sid

/-- A member subdocument of the Board schema (server/models/Board.js). -/
structure SrvMember where
  id : Option String
  email : String
  role : String
  status : String
  deriving Repr, DecidableEq

structure SrvBoard where
  _id : String
  ownerId : String
  isPublic : Bool
  members : List SrvMember
  deriving Repr, DecidableEq

/-- Board membership per the Board schema: the owner, or a member entry
referencing the user with `active` status. -/
def isBoardMember (bs : List SrvBoard) (uid bid : String) : Bool :=
  bs.any (fun b => b._id == bid &&
    (b.ownerId == uid
      || b.members.any (fun m => m.id == some uid && m.status == "active")))

/-! ## Concrete sample states -/

/-- The spec's §8 scenario: board `B1` with `todo = [t1, t2]` and
`done = []` (plus the default middle column). -/
def sampleState : StoreState :=
  { tasks := [
      ("t1", { id := "t1", boardId := "B1", columnId := "todo",
               status := some "todo", title := "Task 1" }),
      ("t2", { id := "t2", boardId := "B1", columnId := "todo",
               status := some "todo", title := "Task 2" })],
    boards := [
      { id := "B1", title := "Board 1", columns := [
        { id := "todo", title := "To Do", taskIds := ["t1", "t2"], position := 0 },
        { id := "in-progress", title := "In Progress", taskIds := [], position := 1 },
        { id := "done", title := "Done", taskIds := [], position := 2 }] }] }

/-- A board with an extra column, for exercising a mismatched
`sourceColumnId`. -/
def mismatchedSourceState : StoreState :=
  { tasks := [
      ("t1", { id := "t1", boardId := "B1", columnId := "todo",
               status := some "todo", title := "Task 1" })],
    boards := [
      { id := "B1", title := "Board 1", columns := [
        { id := "todo", title := "To Do", taskIds := ["t1"], position := 0 },
        { id := "in-progress", title := "In Progress", taskIds := [], position := 1 },
        { id := "done", title := "Done", taskIds := [], position := 2 }] }] }

/-! ### List and map helper lemmas -/

theorem filter_bne_self (t : String) (l : List String) :
    (l.filter (fun id => id != t)).filter (fun id => id != t)
      = l.filter (fun id => id != t) := by
  rw [List.filter_filter]
  simp only [Bool.and_self]

theorem filter_jsSplice (t : String) (l : List String) (i : Nat) :
    (jsSplice l i t).filter (fun id => id != t) = l.filter (fun id => id != t) := by
  unfold jsSplice
  rw [List.filter_append]
  simp only [List.filter]
  have ht : (t != t) = false := by simp
  rw [ht]
  rw [← List.filter_append, List.take_append_drop]

theorem any_tail_of_head_false {p : String × Task} {m : TaskMap} {k : String}
    (h : ((p :: m).any (fun q => q.1 == k)) = true) (hp : (p.1 == k) = false) :
    m.any (fun q => q.1 == k) = true := by
  simp only [List.any_cons, hp, Bool.false_or] at h
  exact h

theorem find?_map_replace (m : TaskMap) (k : String) (v : Task)
    (h : m.any (fun p => p.1 == k) = true) :
    (m.map (fun p => if p.1 == k then (k, v) else p)).find?
      (fun p => p.1 == k) = some (k, v) := by
  induction m with
  | nil => simp at h
  | cons p m ih =>
    rw [List.map_cons]
    cases hp : (p.1 == k) with
    | true =>
      rw [if_pos rfl, List.find?_cons_of_pos _ (by simp)]
    | false =>
      rw [if_neg (by simp),
        @List.find?_cons_of_neg _ (fun q => q.1 == k) p _ (by simp [hp])]
      exact ih (any_tail_of_head_false h hp)

theorem find?_append_fresh (m : TaskMap) (k : String) (v : Task)
    (h : m.any (fun p => p.1 == k) = false) :
    ((m ++ [(k, v)]).find? (fun p => p.1 == k)) = some (k, v) := by
  induction m with
  | nil => simp
  | cons p m ih =>
    simp only [List.any_cons, Bool.or_eq_false_iff] at h
    rw [List.cons_append,
      @List.find?_cons_of_neg _ (fun q => q.1 == k) p _ (by simp [h.1])]
    exact ih h.2

theorem setTask_of_any_true (m : TaskMap) (k : String) (v : Task)
    (h : m.any (fun p => p.1 == k) = true) :
    setTask m k v = m.map (fun p => if p.1 == k then (k, v) else p) := by
  unfold setTask
  rw [if_pos h]

theorem setTask_of_any_false (m : TaskMap) (k : String) (v : Task)
    (h : m.any (fun p => p.1 == k) = false) :
    setTask m k v = m ++ [(k, v)] := by
  unfold setTask
  rw [if_neg (by simp [h])]

theorem lookup_setTask_self (m : TaskMap) (k : String) (v : Task) :
    lookupTask (setTask m k v) k = some v := by
  cases h : m.any (fun p => p.1 == k) with
  | true =>
    rw [setTask_of_any_true m k v h]
    unfold lookupTask
    rw [find?_map_replace m k v h]
    rfl
  | false =>
    rw [setTask_of_any_false m k v h]
    unfold lookupTask
    rw [find?_append_fresh m k v h]
    rfl

theorem any_map_replace (m : TaskMap) (k : String) (v : Task)
    (h : m.any (fun p => p.1 == k) = true) :
    (m.map (fun p => if p.1 == k then (k, v) else p)).any
      (fun p => p.1 == k) = true := by
  induction m with
  | nil => simp at h
  | cons p m ih =>
    rw [List.map_cons]
    cases hp : (p.1 == k) with
    | true => simp [hp]
    | false =>
      rw [if_neg (by simp [hp])]
      simp only [List.any_cons, hp, Bool.false_or]
      exact ih (any_tail_of_head_false h hp)

theorem map_replace_id (m : TaskMap) (k : String) (w : Task)
    (h : m.any (fun p => p.1 == k) = false) :
    m.map (fun p => if p.1 == k then (k, w) else p) = m := by
  induction m with
  | nil => rfl
  | cons p m ih =>
    simp only [List.any_cons, Bool.or_eq_false_iff] at h
    rw [List.map_cons, if_neg (by simp [h.1]), ih h.2]

theorem map_replace_replace (m : TaskMap) (k : String) (v w : Task) :
    (m.map (fun p => if p.1 == k then (k, v) else p)).map
        (fun p => if p.1 == k then (k, w) else p)
      = m.map (fun p => if p.1 == k then (k, w) else p) := by
  induction m with
  | nil => rfl
  | cons p m ih =>
    simp only [List.map_cons, ih]
    by_cases hp : (p.1 == k) = true
    · simp [hp]
    · simp [hp]

theorem setTask_setTask (m : TaskMap) (k : String) (v w : Task) :
    setTask (setTask m k v) k w = setTask m k w := by
  cases h : m.any (fun p => p.1 == k) with
  | true =>
    rw [setTask_of_any_true m k v h, setTask_of_any_true m k w h,
      setTask_of_any_true _ k w (any_map_replace m k v h),
      map_replace_replace]
  | false =>
    have hany : ((m ++ [(k, v)]).any (fun p => p.1 == k)) = true := by simp
    rw [setTask_of_any_false m k v h, setTask_of_any_false m k w h,
      setTask_of_any_true _ k w hany, List.map_append,
      map_replace_id m k w h]
    simp

theorem find?_map_id_pres (f : Board → Board)
    (hf : ∀ b, (f b).id = b.id) (l : List Board) (x : String) :
    (l.map f).find? (fun b => b.id == x) = (l.find? (fun b => b.id == x)).map f := by
  rw [List.find?_map]
  have hp : ((fun b => b.id == x) ∘ f) = (fun b => b.id == x) := by
    funext b
    simp [Function.comp, hf]
  rw [hp]

/-! ### moveTask idempotence (claim C10) -/


theorem moveColumnStep_eq (taskId src dst : String) (i : Nat) (c : Column) :
    moveColumnStep taskId src dst i c
      = { c with taskIds := moveIds taskId src dst i c.id c.taskIds } := by
  unfold moveColumnStep moveIds
  split
  · rfl
  · split
    · rfl
    · split
      · rfl
      · rfl

theorem moveColumnStep_id (taskId src dst : String) (i : Nat) (c : Column) :
    (moveColumnStep taskId src dst i c).id = c.id := by
  rw [moveColumnStep_eq]

theorem moveIds_idem (taskId src dst : String) (i : Nat) (cid : String)
    (l : List String) :
    moveIds taskId src dst i cid (moveIds taskId src dst i cid l)
      = moveIds taskId src dst i cid l := by
  by_cases hs : cid = src
  · by_cases hd : cid = dst
    · have hsd : src = dst := by rw [← hs, ← hd]
      simp [moveIds, hs, hsd]
      rw [filter_jsSplice, filter_bne_self]
    · have hsd : ¬src = dst := by rw [← hs]; exact hd
      simp [moveIds, hs, hsd, filter_bne_self]
  · by_cases hd : cid = dst
    · have hds : ¬dst = src := fun h => hs (hd.trans h)
      simp [moveIds, hd, hds]
      rw [filter_jsSplice, filter_bne_self]
    · simp [moveIds, hs, hd]

theorem moveColumnStep_idem (taskId src dst : String) (i : Nat) (c : Column) :
    moveColumnStep taskId src dst i (moveColumnStep taskId src dst i c)
      = moveColumnStep taskId src dst i c := by
  simp only [moveColumnStep_eq]
  simp only [moveIds_idem]

theorem moveColumns_idem (taskId src dst : String) (i : Nat) (cols : List Column) :
    moveColumns taskId src dst i (moveColumns taskId src dst i cols)
      = moveColumns taskId src dst i cols := by
  unfold moveColumns
  rw [List.map_map]
  apply List.map_congr_left
  intro c _
  exact moveColumnStep_idem taskId src dst i c


theorem moveBoardStep_id (taskId src dst : String) (i : Nat) (bid : String)
    (b : Board) : (moveBoardStep taskId src dst i bid b).id = b.id := by
  unfold moveBoardStep
  split
  · rfl
  · rfl

theorem moveBoardStep_eq (taskId src dst : String) (i : Nat) (bid : String)
    (b : Board) :
    moveBoardStep taskId src dst i bid b
      = { b with columns := if (b.id != bid) = true then b.columns
            else moveColumns taskId src dst i b.columns } := by
  unfold moveBoardStep
  split
  · rfl
  · rfl

theorem moveBoardStep_idem (taskId src dst : String) (i : Nat) (bid : String)
    (b : Board) :
    moveBoardStep taskId src dst i bid (moveBoardStep taskId src dst i bid b)
      = moveBoardStep taskId src dst i bid b := by
  cases hcond : (b.id != bid) with
  | true => simp [moveBoardStep_eq, hcond]
  | false => simp [moveBoardStep_eq, hcond, moveColumns_idem]

/-- `moveTaskLocal` restated through the named step functions. -/
theorem moveTaskLocal_eq (s : StoreState) (taskId src dst : String) (i : Nat) :
    moveTaskLocal s taskId src dst i =
      match lookupTask s.tasks taskId with
      | none => s
      | some task =>
        match s.boards.find? (fun b => b.id == task.boardId) with
        | none => s
        | some _ =>
          { tasks := setTask s.tasks taskId
              { task with columnId := dst, status := some dst },
            boards := s.boards.map (moveBoardStep taskId src dst i task.boardId) } := by
  unfold moveTaskLocal moveBoardStep
  rfl

theorem moveTaskLocal_of_none (s : StoreState) (taskId src dst : String) (i : Nat)
    (h : lookupTask s.tasks taskId = none) :
    moveTaskLocal s taskId src dst i = s := by
  rw [moveTaskLocal_eq, h]


theorem moveTaskLocal_of_noBoard (s : StoreState) (taskId src dst : String)
    (i : Nat) (t : Task) (h : lookupTask s.tasks taskId = some t)
    (hb : s.boards.find? (fun b => b.id == t.boardId) = none) :
    moveTaskLocal s taskId src dst i = s := by
  rw [moveTaskLocal_eq, h]
  dsimp only
  rw [hb]

theorem moveTaskLocal_of_some (s : StoreState) (taskId src dst : String)
    (i : Nat) (t : Task) (b : Board) (h : lookupTask s.tasks taskId = some t)
    (hb : s.boards.find? (fun bb => bb.id == t.boardId) = some b) :
    moveTaskLocal s taskId src dst i =
      { tasks := setTask s.tasks taskId
          { t with columnId := dst, status := some dst },
        boards := s.boards.map (moveBoardStep taskId src dst i t.boardId) } := by
  rw [moveTaskLocal_eq, h]
  dsimp only
  rw [hb]

theorem map_moveBoardStep_idem (taskId src dst : String) (i : Nat)
    (bid : String) (l : List Board) :
    (l.map (moveBoardStep taskId src dst i bid)).map
        (moveBoardStep taskId src dst i bid)
      = l.map (moveBoardStep taskId src dst i bid) := by
  rw [List.map_map]
  apply List.map_congr_left
  intro b _
  exact moveBoardStep_idem taskId src dst i bid b

/-- C10: For every projection state, applying `moveTask`'s local (optimistic)
computation twice with identical arguments `(taskId, sourceColumnId,
destColumnId, destIndex)` yields exactly the same state as applying it once:
the local move computation is idempotent, hence the final column assignment
and intra-column order agree. -/
theorem moveTask_idempotent (s : StoreState) (taskId src dst : String)
    (i : Nat) :
    moveTaskLocal (moveTaskLocal s taskId src dst i) taskId src dst i
      = moveTaskLocal s taskId src dst i := by
  cases h1 : lookupTask s.tasks taskId with
  | none =>
    rw [moveTaskLocal_of_none s taskId src dst i h1,
      moveTaskLocal_of_none s taskId src dst i h1]
  | some t =>
    cases hb : s.boards.find? (fun bb => bb.id == t.boardId) with
    | none =>
      rw [moveTaskLocal_of_noBoard s taskId src dst i t h1 hb,
        moveTaskLocal_of_noBoard s taskId src dst i t h1 hb]
    | some b =>
      rw [moveTaskLocal_of_some s taskId src dst i t b h1 hb]
      have h2 : lookupTask (setTask s.tasks taskId
          { t with columnId := dst, status := some dst }) taskId
          = some { t with columnId := dst, status := some dst } :=
        lookup_setTask_self s.tasks taskId _
      have hb2 : (s.boards.map (moveBoardStep taskId src dst i t.boardId)).find?
          (fun bb => bb.id == t.boardId)
          = some (moveBoardStep taskId src dst i t.boardId b) := by
        rw [find?_map_id_pres _ (moveBoardStep_id taskId src dst i t.boardId)
          s.boards t.boardId, hb]
        rfl
      rw [moveTaskLocal_of_some _ taskId src dst i
        { t with columnId := dst, status := some dst }
        (moveBoardStep taskId src dst i t.boardId b) h2 hb2]
      dsimp only
      rw [setTask_setTask, map_moveBoardStep_idem]


/-! ### Rollback correctness (claim C2) -/

theorem eraseTask_append_fresh (m : TaskMap) (k : String) (v : Task)
    (h : m.any (fun p => p.1 == k) = false) :
    eraseTask (m ++ [(k, v)]) k = m := by
  unfold eraseTask
  rw [List.filter_append]
  have h2 : ([(k, v)] : TaskMap).filter (fun p => p.1 != k) = [] := by simp
  rw [h2, List.append_nil]
  apply List.filter_eq_self.mpr
  intro p hp
  cases hpk : (p.1 == k) with
  | true =>
    exfalso
    have : m.any (fun p => p.1 == k) = true := List.any_eq_true.mpr ⟨p, hp, hpk⟩
    rw [h] at this
    exact Bool.false_ne_true this
  | false => simpa using hpk

theorem filter_ne_of_not_mem (l : List String) (x : String) (hx : x ∉ l) :
    l.filter (fun id => id != x) = l := by
  apply List.filter_eq_self.mpr
  intro a ha
  have hax : a ≠ x := fun he => hx (he ▸ ha)
  simp [hax]

theorem remove_add_column (tempId cid : String) (c : Column)
    (hc : tempId ∉ c.taskIds) :
    createTaskColumnRemove tempId (createTaskColumnAdd tempId cid c) = c := by
  unfold createTaskColumnAdd createTaskColumnRemove
  by_cases h : (c.id == cid) = true
  · rw [if_pos h]
    show ({ c with taskIds :=
      (c.taskIds ++ [tempId]).filter (fun id => id != tempId) } : Column) = c
    rw [List.filter_append, filter_ne_of_not_mem _ _ hc]
    simp
  · rw [if_neg h]
    show ({ c with taskIds :=
      c.taskIds.filter (fun id => id != tempId) } : Column) = c
    rw [filter_ne_of_not_mem _ _ hc]

theorem remove_add_board (d : CreateData) (tempId : String) (b : Board)
    (hb : ∀ c ∈ b.columns, tempId ∉ c.taskIds) :
    createBoardRemove d tempId (createBoardAdd d tempId b) = b := by
  unfold createBoardAdd createBoardRemove
  by_cases h : (b.id != d.boardId) = true
  · rw [if_pos h, if_pos h]
  · rw [if_neg h]
    dsimp only
    rw [if_neg h, List.map_map]
    have hcong : ∀ c ∈ b.columns,
        (createTaskColumnRemove tempId ∘ createTaskColumnAdd tempId d.columnId) c
          = id c := by
      intro c hc
      exact remove_add_column tempId d.columnId c (hb c hc)
    rw [List.map_congr_left hcong, List.map_id]

theorem createTask_rollback_eq (s : StoreState) (d : CreateData)
    (tempId : String) (hfresh : freshIdB s tempId = true) :
    createTaskRollback (createTaskOptimistic s d tempId) d tempId = s := by
  unfold freshIdB at hfresh
  rw [Bool.and_eq_true] at hfresh
  obtain ⟨h1, h2⟩ := hfresh
  have h1' : s.tasks.any (fun p => p.1 == tempId) = false := by
    cases h : s.tasks.any (fun p => p.1 == tempId) with
    | true => rw [h] at h1; exact absurd h1 (by simp)
    | false => rfl
  unfold createTaskRollback createTaskOptimistic
  dsimp only
  rw [setTask_of_any_false s.tasks tempId _ h1',
    eraseTask_append_fresh s.tasks tempId _ h1', List.map_map]
  have hcong : ∀ b ∈ s.boards,
      (createBoardRemove d tempId ∘ createBoardAdd d tempId) b = id b := by
    intro b hbmem
    apply remove_add_board
    intro c hc hmem
    rw [List.all_eq_true] at h2
    have := h2 b hbmem
    rw [List.all_eq_true] at this
    have hcol := this c hc
    rw [Bool.not_eq_true'] at hcol
    simp_all
  rw [List.map_congr_left hcong, List.map_id]

/-- C2: if the durable write underlying `createTask` or `moveTask` fails,
the rollback restores the projection (tasks map plus boards, including every
column's `taskIds` order) to a state equal to the pre-mutation projection;
for `moveTask` the entire pre-move snapshot is restored verbatim.  The
`createTask` part assumes the client-local temp id is fresh (it is
`temp-<Date.now()>`, absent from any server-assigned state). -/
theorem rollback_restores_pre_mutation (s : StoreState) (d : CreateData)
    (tempId taskId src dst : String) (i : Nat) (e e' : ApiError)
    (hfresh : freshIdB s tempId = true) :
    (moveTaskRun s taskId src dst i (Except.error e)).1 = s
    ∧ (createTaskRun s d tempId (Except.error e')).1 = s := by
  constructor
  · rfl
  · show createTaskRollback (createTaskOptimistic s d tempId) d tempId = s
    exact createTask_rollback_eq s d tempId hfresh

theorem rollback_restores_pre_mutation_witness :
    freshIdB sampleState "temp-123" = true
    ∧ ((moveTaskRun sampleState "t1" "todo" "done" 0
          (Except.error { kind := ErrorKind.network, message := "Network Error" })).1
        = sampleState
      ∧ (createTaskRun sampleState
          { boardId := "B1", columnId := "todo", title := "New task" } "temp-123"
          (Except.error { kind := ErrorKind.network, message := "Network Error" })).1
        = sampleState) :=
  ⟨by decide,
    rollback_restores_pre_mutation sampleState
      { boardId := "B1", columnId := "todo", title := "New task" }
      "temp-123" "t1" "todo" "done" 0
      { kind := ErrorKind.network, message := "Network Error" }
      { kind := ErrorKind.network, message := "Network Error" }
      (by decide)⟩

/-- C3 counterexample: the claim says only `network` failures roll back
while `not_found` triggers a refetch without rollback.  On the code, a
`not_found`-style failure of `moveTask`'s durable write DOES roll the move
back (the post-failure state equals the pre-move state, while the optimistic
move had genuinely changed it), and no refetch is issued. -/
theorem nonnetwork_failure_rolls_back_cex :
    moveTaskRun sampleState "t1" "todo" "done" 0
        (Except.error { kind := ErrorKind.notFound, message := "Task not found" })
      = (sampleState, false)
    ∧ moveTaskLocal sampleState "t1" "todo" "done" 0 ≠ sampleState := by
  constructor
  · rfl
  · decide

/-- C3 (amended): the client's durable-write failure handling is untyped:
EVERY failure of `moveTask`'s deferred write restores the pre-move snapshot,
every failure of `createTask` removes the optimistic task, and no failure
triggers a board refetch — regardless of the error's kind. -/
theorem all_failures_roll_back (s : StoreState) (d : CreateData)
    (tempId taskId src dst : String) (i : Nat) (e : ApiError)
    (hfresh : freshIdB s tempId = true) :
    moveTaskRun s taskId src dst i (Except.error e) = (s, false)
    ∧ createTaskRun s d tempId (Except.error e) = (s, false) := by
  constructor
  · rfl
  · show (createTaskRollback (createTaskOptimistic s d tempId) d tempId, false)
      = (s, false)
    rw [createTask_rollback_eq s d tempId hfresh]

theorem all_failures_roll_back_witness :
    freshIdB sampleState "temp-99" = true
    ∧ (moveTaskRun sampleState "t2" "todo" "done" 0
          (Except.error { kind := ErrorKind.notAuthorized, message := "Forbidden" })
        = (sampleState, false)
      ∧ createTaskRun sampleState
          { boardId := "B1", columnId := "done", title := "X" } "temp-99"
          (Except.error { kind := ErrorKind.notAuthorized, message := "Forbidden" })
        = (sampleState, false)) :=
  ⟨by decide,
    all_failures_roll_back sampleState
      { boardId := "B1", columnId := "done", title := "X" }
      "temp-99" "t2" "todo" "done" 0
      { kind := ErrorKind.notAuthorized, message := "Forbidden" }
      (by decide)⟩

/-- C9 counterexample: the claim says every mutation intent — including
`updateTask` and `deleteTask` — applies its optimistic local change before
issuing the durable write.  In `updateTask` the durable write is awaited
FIRST and the projection is only touched afterwards (on success), so no
local change precedes the write. -/
theorem update_task_not_optimistic_cex :
    optimisticFirst (updateTaskEvents false) = false
    ∧ optimisticFirst (updateTaskEvents true) = false
    ∧ optimisticFirst (deleteTaskEvents false) = false := by
  decide

/-- C9 (amended): `createTask` and `moveTask` apply their optimistic local
change strictly before issuing the durable write and reconcile or roll back
afterwards; `updateTask` and `deleteTask` issue the durable write first and
change the projection only after it succeeds — on failure their projection
is untouched (there is no optimistic change to roll back). -/
theorem mutation_apply_order :
    optimisticFirst createTaskEvents = true
    ∧ (∀ b : Bool, optimisticFirst (moveTaskEvents b) = true)
    ∧ (∀ b : Bool, optimisticFirst (updateTaskEvents b) = false)
    ∧ (∀ b : Bool, optimisticFirst (deleteTaskEvents b) = false)
    ∧ (∀ (s : StoreState) (taskId : String) (u : TaskUpdates) (e : ApiError),
        updateTaskRun s taskId u (Except.error e) = s)
    ∧ (∀ (s : StoreState) (taskId : String) (e : ApiError),
        deleteTaskRun s taskId (Except.error e) = s) := by
  refine ⟨by decide, by decide, by decide, by decide, ?_, ?_⟩
  · intro s taskId u e
    rfl
  · intro s taskId e
    unfold deleteTaskRun
    cases lookupTask s.tasks taskId <;> rfl

/-- C5 counterexample: the Notification schema declares no uniqueness
constraint on `(userId, taskId, type)` — its only declared indexes are the
implicit `_id` primary key and a non-unique `{userId: 1, createdAt: -1}`
query index. -/
theorem no_unique_deadline_index_cex :
    enforcesUniqueOn notificationSchema ["userId", "taskId", "type"] = false := by
  decide

/-- C5 (amended): the persistence layer enforces no uniqueness constraint on
`(userId, taskId, type)`; duplicate `task_deadline` notifications are
prevented only by the scheduler's application-level check-then-create
(`processTask` creates nothing when a matching notification exists), so
correctness is NOT guaranteed if that check is skipped or raced. -/
theorem deadline_dedupe_app_level_only :
    enforcesUniqueOn notificationSchema ["userId", "taskId", "type"] = false
    ∧ (∀ (ns : List SNotification) (t : STask),
        hasDeadlineNotif ns t.userId t._id = true → processTask ns t = ns) := by
  refine ⟨by decide, ?_⟩
  intro ns t h
  unfold processTask
  rw [h]
  rfl

theorem deadline_dedupe_app_level_only_witness :
    hasDeadlineNotif
        [{ userId := "u1", message := "m", type := "task_deadline",
           boardId := some "B1", taskId := some "t1", read := false }]
        "u1" "t1" = true
    ∧ processTask
        [{ userId := "u1", message := "m", type := "task_deadline",
           boardId := some "B1", taskId := some "t1", read := false }]
        { _id := "t1", userId := "u1", title := "T", status := "todo",
          dueDate := some 100, boardId := some { _id := "B1", name := "Board" } }
      = [{ userId := "u1", message := "m", type := "task_deadline",
           boardId := some "B1", taskId := some "t1", read := false }] :=
  ⟨by decide,
    deadline_dedupe_app_level_only.2
      [{ userId := "u1", message := "m", type := "task_deadline",
         boardId := some "B1", taskId := some "t1", read := false }]
      { _id := "t1", userId := "u1", title := "T", status := "todo",
        dueDate := some 100, boardId := some { _id := "B1", name := "Board" } }
      (by decide)⟩

/-! ### Deadline scheduler lemmas (claims C6/C7) -/

theorem processTask_eq_or (ns : List SNotification) (t : STask) :
    ((hasDeadlineNotif ns t.userId t._id = true ∨ t.boardId = none)
      ∧ processTask ns t = ns)
    ∨ (∃ b, t.boardId = some b ∧ hasDeadlineNotif ns t.userId t._id = false
        ∧ processTask ns t = ns ++ [mkDeadlineNotif t b]) := by
  unfold processTask
  cases hc : hasDeadlineNotif ns t.userId t._id with
  | true => exact Or.inl ⟨Or.inl rfl, rfl⟩
  | false =>
    cases hb : t.boardId with
    | none =>
      refine Or.inl ⟨Or.inr rfl, ?_⟩
      rfl
    | some b =>
      refine Or.inr ⟨b, rfl, rfl, ?_⟩
      rfl

theorem hasDeadline_mono (ns : List SNotification) (t : STask) (u tid : String)
    (h : hasDeadlineNotif ns u tid = true) :
    hasDeadlineNotif (processTask ns t) u tid = true := by
  cases processTask_eq_or ns t with
  | inl he =>
    rw [he.2]
    exact h
  | inr hex =>
    obtain ⟨b, _, _, he⟩ := hex
    rw [he]
    unfold hasDeadlineNotif at h ⊢
    rw [List.any_append, h, Bool.true_or]

theorem hasDeadline_after_processTask (ns : List SNotification) (t : STask)
    (b : SBoard) (hb : t.boardId = some b) :
    hasDeadlineNotif (processTask ns t) t.userId t._id = true := by
  cases processTask_eq_or ns t with
  | inl he =>
    rcases he.1 with hc | hnone
    · rw [he.2]
      exact hc
    · rw [hnone] at hb
      cases hb
  | inr hex =>
    obtain ⟨b', _, _, he⟩ := hex
    rw [he]
    unfold hasDeadlineNotif
    rw [List.any_append]
    have hmk : ([mkDeadlineNotif t b'].any (fun n => n.userId == t.userId
        && n.taskId == some t._id && n.type == "task_deadline")) = true := by
      simp [mkDeadlineNotif]
    rw [hmk, Bool.or_true]

theorem processTask_id_of (ns : List SNotification) (t : STask)
    (h : t.boardId = none ∨ hasDeadlineNotif ns t.userId t._id = true) :
    processTask ns t = ns := by
  cases processTask_eq_or ns t with
  | inl he => exact he.2
  | inr hex =>
    obtain ⟨b, hb, hc, _⟩ := hex
    exfalso
    cases h with
    | inl hn => rw [hn] at hb; cases hb
    | inr hh => rw [hh] at hc; cases hc

theorem foldl_processTask_id (l : List STask) (ns : List SNotification)
    (h : ∀ t ∈ l, processTask ns t = ns) : l.foldl processTask ns = ns := by
  induction l with
  | nil => rfl
  | cons t ts ih =>
    rw [List.foldl_cons, h t (List.mem_cons_self t ts)]
    exact ih (fun t' ht' => h t' (List.mem_cons_of_mem t ht'))

theorem hasDeadline_fold_mono (l : List STask) (ns : List SNotification)
    (u tid : String) (h : hasDeadlineNotif ns u tid = true) :
    hasDeadlineNotif (l.foldl processTask ns) u tid = true := by
  induction l generalizing ns with
  | nil => exact h
  | cons x xs ih =>
    rw [List.foldl_cons]
    exact ih _ (hasDeadline_mono ns x u tid h)

theorem hasDeadline_after_fold (l : List STask) (t : STask) (b : SBoard)
    (hb : t.boardId = some b) :
    ∀ ns, t ∈ l →
      hasDeadlineNotif (l.foldl processTask ns) t.userId t._id = true := by
  induction l with
  | nil => intro ns ht; cases ht
  | cons x xs ih =>
    intro ns ht
    rw [List.foldl_cons]
    cases List.mem_cons.mp ht with
    | inl he =>
      subst he
      exact hasDeadline_fold_mono xs _ _ _
        (hasDeadline_after_processTask ns t b hb)
    | inr hmem => exact ih (processTask ns x) hmem

theorem hasDeadline_false_of_count_zero (ns : List SNotification)
    (u tid : String) (h : countDeadline ns u tid = 0) :
    hasDeadlineNotif ns u tid = false := by
  unfold countDeadline at h
  unfold hasDeadlineNotif
  cases hh : ns.any (fun n => n.userId == u && n.taskId == some tid
      && n.type == "task_deadline") with
  | false => rfl
  | true =>
    exfalso
    obtain ⟨n, hn, hpn⟩ := List.any_eq_true.mp hh
    have hmem : n ∈ ns.filter (fun n => n.userId == u && n.taskId == some tid
        && n.type == "task_deadline") := List.mem_filter.mpr ⟨hn, hpn⟩
    rw [List.length_eq_zero] at h
    rw [h] at hmem
    cases hmem

theorem countDeadline_append_one (ns : List SNotification) (x : SNotification)
    (u tid : String) :
    countDeadline (ns ++ [x]) u tid = countDeadline ns u tid
      + (if x.userId == u && x.taskId == some tid && x.type == "task_deadline"
         then 1 else 0) := by
  unfold countDeadline
  rw [List.filter_append, List.length_append]
  congr 1
  cases hx : (x.userId == u && x.taskId == some tid
      && x.type == "task_deadline") with
  | true => simp [List.filter_cons, hx]
  | false => simp [List.filter_cons, hx]

theorem countDeadline_processTask (ns : List SNotification) (x : STask)
    (u tid : String) :
    countDeadline (processTask ns x) u tid =
      countDeadline ns u tid +
        (if (x.userId == u && x._id == tid)
            && (!(hasDeadlineNotif ns u tid) && x.boardId.isSome)
         then 1 else 0) := by
  by_cases hk : (x.userId == u && x._id == tid) = true
  · have hu : x.userId = u := eq_of_beq ((Bool.and_eq_true _ _).mp hk).1
    have hi : x._id = tid := eq_of_beq ((Bool.and_eq_true _ _).mp hk).2
    subst hu
    subst hi
    cases processTask_eq_or ns x with
    | inl he =>
      rw [he.2]
      rcases he.1 with hw | hw
      · simp [hw]
      · simp [hw]
    | inr hex =>
      obtain ⟨b, hb, hc, he⟩ := hex
      rw [he, countDeadline_append_one]
      simp [mkDeadlineNotif, hb, hc]
  · have hk' : (x.userId == u && x._id == tid) = false := by
      cases hkk : (x.userId == u && x._id == tid) with
      | true => exact absurd hkk hk
      | false => rfl
    rw [hk', Bool.false_and, if_neg (by simp)]
    cases processTask_eq_or ns x with
    | inl he =>
      rw [he.2]
      simp
    | inr hex =>
      obtain ⟨b, hb, hc, he⟩ := hex
      rw [he, countDeadline_append_one]
      have hpred : ((mkDeadlineNotif x b).userId == u
          && (mkDeadlineNotif x b).taskId == some tid
          && (mkDeadlineNotif x b).type == "task_deadline") = false := by
        rcases Bool.and_eq_false_iff.mp hk' with hf | hf
        · simp [mkDeadlineNotif, hf]
        · have : ¬x._id = tid := by
            intro he'
            rw [he'] at hf
            simp at hf
          simp [mkDeadlineNotif, this]
      rw [hpred]
      simp

theorem countDeadline_fold_stable (l : List STask) (u tid : String) :
    ∀ ns, hasDeadlineNotif ns u tid = true →
      countDeadline (l.foldl processTask ns) u tid = countDeadline ns u tid := by
  induction l with
  | nil => intro ns _; rfl
  | cons x xs ih =>
    intro ns h
    rw [List.foldl_cons, ih _ (hasDeadline_mono ns x u tid h),
      countDeadline_processTask, h]
    simp

theorem countDeadline_fold_of_zero (l : List STask) (u tid : String) :
    ∀ ns, countDeadline ns u tid = 0 →
      countDeadline (l.foldl processTask ns) u tid
        = (if l.any (fun t => t.userId == u && t._id == tid && t.boardId.isSome)
           then 1 else 0) := by
  induction l with
  | nil =>
    intro ns h0
    simpa using h0
  | cons x xs ih =>
    intro ns h0
    rw [List.foldl_cons, List.any_cons]
    have hfalse := hasDeadline_false_of_count_zero ns u tid h0
    by_cases hx : (x.userId == u && x._id == tid && x.boardId.isSome) = true
    · have hk : (x.userId == u && x._id == tid) = true :=
        ((Bool.and_eq_true _ _).mp hx).1
      have hsome : x.boardId.isSome = true := ((Bool.and_eq_true _ _).mp hx).2
      obtain ⟨b, hb⟩ := Option.isSome_iff_exists.mp hsome
      have hcount : countDeadline (processTask ns x) u tid = 1 := by
        rw [countDeadline_processTask, h0, hfalse, hk, hsome]
        simp
      have hu : x.userId = u := eq_of_beq ((Bool.and_eq_true _ _).mp hk).1
      have hi : x._id = tid := eq_of_beq ((Bool.and_eq_true _ _).mp hk).2
      have hhas : hasDeadlineNotif (processTask ns x) u tid = true := by
        rw [← hu, ← hi]
        exact hasDeadline_after_processTask ns x b hb
      rw [countDeadline_fold_stable xs u tid _ hhas, hcount, hx]
      simp
    · have hx' : (x.userId == u && x._id == tid && x.boardId.isSome) = false := by
        cases hxx : (x.userId == u && x._id == tid && x.boardId.isSome) with
        | true => exact absurd hxx hx
        | false => rfl
      have hcount : countDeadline (processTask ns x) u tid = 0 := by
        rw [countDeadline_processTask, h0]
        rcases Bool.and_eq_false_iff.mp hx' with hf | hf
        · rw [hf, Bool.false_and, if_neg (by simp)]
        · rw [hf, Bool.and_false, Bool.and_false, if_neg (by simp)]
      rw [ih _ hcount, hx', Bool.false_or]

/-- C6: for an unchanged task set, running the scheduler tick twice produces
the same notification list as running it once (so exactly one
`task_deadline` notification per qualifying task, not two): each tick checks
for an existing `task_deadline` notification for `(task.userId, task._id)`
and skips creation when it exists.  A qualifying task (due within 24h,
status not done) with its populated board present and no pre-existing
notification for its key ends the tick with exactly one. -/
theorem deadline_tick_dedupe (now : Int) (ts : List STask)
    (ns : List SNotification) :
    checkDeadlines now ts (checkDeadlines now ts ns) = checkDeadlines now ts ns
    ∧ (∀ t ∈ ts, qualifies now t = true → t.boardId.isSome = true →
        countDeadline ns t.userId t._id = 0 →
        countDeadline (checkDeadlines now ts ns) t.userId t._id = 1) := by
  constructor
  · unfold checkDeadlines
    apply foldl_processTask_id
    intro t ht
    apply processTask_id_of
    cases hb : t.boardId with
    | none => exact Or.inl rfl
    | some b =>
      exact Or.inr
        (hasDeadline_after_fold (ts.filter (qualifies now)) t b hb ns ht)
  · intro t ht hq hsome h0
    unfold checkDeadlines
    rw [countDeadline_fold_of_zero _ _ _ ns h0]
    have hmem : t ∈ ts.filter (qualifies now) := List.mem_filter.mpr ⟨ht, hq⟩
    have hany : (ts.filter (qualifies now)).any
        (fun t' => t'.userId == t.userId && t'._id == t._id
          && t'.boardId.isSome) = true :=
      List.any_eq_true.mpr ⟨t, hmem, by simp [hsome]⟩
    rw [if_pos hany]

theorem deadline_tick_dedupe_witness :
    countDeadline
      (checkDeadlines 0
        [{ _id := "t1", userId := "u1", title := "T1", status := "todo",
           dueDate := some 100, boardId := some { _id := "B1", name := "Board" } }]
        [])
      "u1" "t1" = 1 :=
  (deadline_tick_dedupe 0
    [{ _id := "t1", userId := "u1", title := "T1", status := "todo",
       dueDate := some 100, boardId := some { _id := "B1", name := "Board" } }]
    []).2
    { _id := "t1", userId := "u1", title := "T1", status := "todo",
      dueDate := some 100, boardId := some { _id := "B1", name := "Board" } }
    (by decide) (by decide) (by decide) (by decide)

/-- C7 counterexample: with two qualifying tasks in one tick, a failure
while processing the first leaves the second unprocessed — the whole tick's
loop is inside one `try/catch`, so nothing is created for the second task,
even though processing it alone would create its notification. -/
theorem tick_failure_aborts_rest_cex :
    checkDeadlinesWithFailures 0
      [({ _id := "tA", userId := "u1", title := "A", status := "todo",
          dueDate := some 100, boardId := some { _id := "B1", name := "Board" } },
        true),
       ({ _id := "tB", userId := "u2", title := "B", status := "todo",
          dueDate := some 200, boardId := some { _id := "B1", name := "Board" } },
        false)]
      [] = []
    ∧ checkDeadlines 0
        [{ _id := "tB", userId := "u2", title := "B", status := "todo",
           dueDate := some 200, boardId := some { _id := "B1", name := "Board" } }]
        [] ≠ [] := by
  constructor
  · rfl
  · decide

/-- C7 (amended): within a single tick, a failure while processing one task
ABORTS the processing of the remaining tasks (the `catch` wraps the whole
loop): a throw at the first qualifying task leaves the notification list
exactly as accumulated so far, with every remaining task skipped. -/
theorem tick_failure_aborts_rest (now : Int) (t : STask)
    (rest : List (STask × Bool)) (ns : List SNotification)
    (hq : qualifies now t = true) :
    checkDeadlinesWithFailures now ((t, true) :: rest) ns = ns := by
  unfold checkDeadlinesWithFailures
  rw [List.filter_cons, if_pos hq]
  rfl

theorem tick_failure_aborts_rest_witness :
    qualifies 0 { _id := "tA", userId := "u1", title := "A", status := "todo",
                  dueDate := some 100,
                  boardId := some { _id := "B1", name := "Board" } } = true
    ∧ checkDeadlinesWithFailures 0
        [({ _id := "tA", userId := "u1", title := "A", status := "todo",
            dueDate := some 100, boardId := some { _id := "B1", name := "Board" } },
          true),
         ({ _id := "tB", userId := "u2", title := "B", status := "todo",
            dueDate := some 200, boardId := some { _id := "B1", name := "Board" } },
          false)]
        [] = [] :=
  ⟨by decide,
    tick_failure_aborts_rest 0
      { _id := "tA", userId := "u1", title := "A", status := "todo",
        dueDate := some 100, boardId := some { _id := "B1", name := "Board" } }
      [({ _id := "tB", userId := "u2", title := "B", status := "todo",
          dueDate := some 200, boardId := some { _id := "B1", name := "Board" } },
        false)]
      [] (by decide)⟩

/-- C8: the claim (and the spec) require the server to re-verify the
requesting session's board membership before joining it to the
`board:<id>` room.  The `join_board` handler performs no such check: it
joins ANY socket to ANY requested board room.  Here a socket whose user is
not a member of the private board `B1` (not the owner, member list empty)
ends up in `board:B1` — the room that receives `task_created`/`task_updated`
fan-out for that board. -/
theorem join_board_without_membership :
    inRoom (handleJoinBoard { rooms := [] } "sock1" "B1") "board:B1" "sock1" = true
    ∧ isBoardMember
        [{ _id := "B1", ownerId := "owner1", isPublic := false, members := [] }]
        "intruder" "B1" = false := by
  decide

/-! ### Temp-id swap (claim C4) -/

theorem createTaskColumnAdd_eq (x cid : String) (c : Column) :
    createTaskColumnAdd x cid c
      = { c with taskIds := if c.id == cid then c.taskIds ++ [x] else c.taskIds } := by
  unfold createTaskColumnAdd
  split
  · rfl
  · rfl

theorem createTaskColumnSwap_eq (tempId newId cid : String) (c : Column) :
    createTaskColumnSwap tempId newId cid c
      = { c with taskIds := if c.id == cid then
            c.taskIds.map (fun id => if id == tempId then newId else id)
          else c.taskIds } := by
  unfold createTaskColumnSwap
  split
  · rfl
  · rfl

theorem createBoardAdd_eq (d : CreateData) (x : String) (b : Board) :
    createBoardAdd d x b
      = { b with columns := if (b.id != d.boardId) = true then b.columns
            else b.columns.map (createTaskColumnAdd x d.columnId) } := by
  unfold createBoardAdd
  split
  · rfl
  · rfl

theorem createBoardSwap_eq (bid cid tempId newId : String) (b : Board) :
    createBoardSwap bid cid tempId newId b
      = { b with columns := if (b.id != bid) = true then b.columns
            else b.columns.map (createTaskColumnSwap tempId newId cid) } := by
  unfold createBoardSwap
  split
  · rfl
  · rfl

theorem createBoardAdd_id (d : CreateData) (x : String) (b : Board) :
    (createBoardAdd d x b).id = b.id := by
  rw [createBoardAdd_eq]

theorem createTaskColumnAdd_id (x cid : String) (c : Column) :
    (createTaskColumnAdd x cid c).id = c.id := by
  rw [createTaskColumnAdd_eq]

theorem map_swap_fresh (l : List String) (tempId newId : String)
    (hl : tempId ∉ l) :
    (l ++ [tempId]).map (fun id => if id == tempId then newId else id)
      = l ++ [newId] := by
  rw [List.map_append]
  congr 1
  · have hcong : ∀ a ∈ l, (if a == tempId then newId else a) = id a := by
      intro a ha
      have hne : ¬a = tempId := fun he => hl (he ▸ ha)
      rw [if_neg (by simpa using hne)]
      rfl
    rw [List.map_congr_left hcong, List.map_id]
  · simp

theorem swap_add_column (tempId newId cid : String) (c : Column)
    (hc : tempId ∉ c.taskIds) :
    createTaskColumnSwap tempId newId cid (createTaskColumnAdd tempId cid c)
      = createTaskColumnAdd newId cid c := by
  rw [createTaskColumnAdd_eq, createTaskColumnSwap_eq, createTaskColumnAdd_eq]
  dsimp only
  by_cases h : (c.id == cid) = true
  · rw [if_pos h, if_pos h, if_pos h, map_swap_fresh c.taskIds tempId newId hc]
  · rw [if_neg h, if_neg h, if_neg h]

theorem swap_add_board (d : CreateData) (tempId newId : String) (b : Board)
    (hb : ∀ c ∈ b.columns, tempId ∉ c.taskIds) :
    createBoardSwap d.boardId d.columnId tempId newId (createBoardAdd d tempId b)
      = createBoardAdd d newId b := by
  rw [createBoardAdd_eq, createBoardSwap_eq, createBoardAdd_eq]
  dsimp only
  by_cases h : (b.id != d.boardId) = true
  · rw [if_pos h, if_pos h, if_pos h]
  · rw [if_neg h, if_neg h, if_neg h, List.map_map]
    have hcong : ∀ c ∈ b.columns,
        (createTaskColumnSwap tempId newId d.columnId
          ∘ createTaskColumnAdd tempId d.columnId) c
        = createTaskColumnAdd newId d.columnId c :=
      fun c hc => swap_add_column tempId newId d.columnId c (hb c hc)
    rw [List.map_congr_left hcong]

theorem find?_map_col_id_pres (f : Column → Column)
    (hf : ∀ c, (f c).id = c.id) (l : List Column) (x : String) :
    (l.map f).find? (fun c => c.id == x)
      = (l.find? (fun c => c.id == x)).map f := by
  rw [List.find?_map]
  have hp : ((fun c => c.id == x) ∘ f) = (fun c => c.id == x) := by
    funext c
    simp [Function.comp, hf]
  rw [hp]

theorem colTaskIds_map_add (m1 m2 : TaskMap) (bs : List Board)
    (d : CreateData) (x : String) (l : List String)
    (h : colTaskIds ⟨m1, bs⟩ d.boardId d.columnId = some l) :
    colTaskIds ⟨m2, bs.map (createBoardAdd d x)⟩ d.boardId d.columnId
      = some (l ++ [x]) := by
  unfold colTaskIds at h ⊢
  dsimp only at h ⊢
  rw [find?_map_id_pres (createBoardAdd d x) (createBoardAdd_id d x) bs d.boardId]
  cases hb : bs.find? (fun b => b.id == d.boardId) with
  | none =>
    rw [hb] at h
    cases h
  | some b =>
    rw [hb] at h
    dsimp only at h
    have hbid := List.find?_some hb
    have hcond : (b.id != d.boardId) = false := by simp [eq_of_beq hbid]
    have hcols : (createBoardAdd d x b).columns
        = b.columns.map (createTaskColumnAdd x d.columnId) := by
      rw [createBoardAdd_eq]
      dsimp only
      rw [hcond, if_neg (by simp)]
    simp only [Option.map_some']
    rw [hcols, find?_map_col_id_pres (createTaskColumnAdd x d.columnId)
      (createTaskColumnAdd_id x d.columnId) b.columns d.columnId]
    cases hc : b.columns.find? (fun c => c.id == d.columnId) with
    | none =>
      rw [hc] at h
      cases h
    | some c =>
      rw [hc] at h
      have hcid := List.find?_some hc
      have hids : (createTaskColumnAdd x d.columnId c).taskIds
          = c.taskIds ++ [x] := by
        rw [createTaskColumnAdd_eq]
        dsimp only
        rw [if_pos hcid]
      simp only [Option.map_some']
      rw [hids, Option.some.inj h]

theorem setTask_any_fresh (m : TaskMap) (k t : String) (v : Task)
    (h : m.any (fun p => p.1 == t) = false) (hkt : k ≠ t) :
    (setTask m k v).any (fun p => p.1 == t) = false := by
  cases hb : m.any (fun p => p.1 == k) with
  | true =>
    rw [setTask_of_any_true m k v hb]
    cases hres : (m.map (fun p => if p.1 == k then (k, v) else p)).any
        (fun p => p.1 == t) with
    | false => rfl
    | true =>
      exfalso
      obtain ⟨p, hp, hpt⟩ := List.any_eq_true.mp hres
      obtain ⟨q, hq, hfq⟩ := List.mem_map.mp hp
      by_cases hqk : (q.1 == k) = true
      · rw [if_pos hqk] at hfq
        rw [← hfq] at hpt
        exact hkt (eq_of_beq hpt)
      · rw [if_neg hqk] at hfq
        rw [← hfq] at hpt
        have : m.any (fun p => p.1 == t) = true :=
          List.any_eq_true.mpr ⟨q, hq, hpt⟩
        rw [h] at this
        exact Bool.false_ne_true this
  | false =>
    rw [setTask_of_any_false m k v hb]
    cases hres : ((m ++ [(k, v)]).any (fun p => p.1 == t)) with
    | false => rfl
    | true =>
      exfalso
      obtain ⟨p, hp, hpt⟩ := List.any_eq_true.mp hres
      cases List.mem_append.mp hp with
      | inl hpm =>
        have : m.any (fun p => p.1 == t) = true :=
          List.any_eq_true.mpr ⟨p, hpm, hpt⟩
        rw [h] at this
        exact Bool.false_ne_true this
      | inr hpk =>
        rw [List.mem_singleton.mp hpk] at hpt
        exact hkt (eq_of_beq hpt)

theorem contains_append_fresh (l : List String) (x t : String)
    (hl : l.contains t = false) (hx : x ≠ t) :
    (l ++ [x]).contains t = false := by
  cases hc : (l ++ [x]).contains t with
  | false => rfl
  | true =>
    exfalso
    have hmem : t ∈ l ++ [x] := by simpa using hc
    cases List.mem_append.mp hmem with
    | inl hm =>
      have : l.contains t = true := by simpa using hm
      rw [hl] at this
      exact Bool.false_ne_true this
    | inr hm => exact hx (List.mem_singleton.mp hm).symm

theorem add_board_columns_fresh (d : CreateData) (x t : String) (hx : x ≠ t)
    (b : Board) (hb : ∀ c ∈ b.columns, c.taskIds.contains t = false) :
    ∀ c ∈ (createBoardAdd d x b).columns, c.taskIds.contains t = false := by
  rw [createBoardAdd_eq]
  dsimp only
  intro c hc
  by_cases h : (b.id != d.boardId) = true
  · rw [if_pos h] at hc
    exact hb c hc
  · rw [if_neg h] at hc
    obtain ⟨c0, hc0, hfc⟩ := List.mem_map.mp hc
    rw [createTaskColumnAdd_eq] at hfc
    rw [← hfc]
    dsimp only
    by_cases hcid : (c0.id == d.columnId) = true
    · rw [if_pos hcid]
      exact contains_append_fresh c0.taskIds x t (hb c0 hc0) hx
    · rw [if_neg hcid]
      exact hb c0 hc0

theorem freshIdB_result (s : StoreState) (d : CreateData)
    (tempId newId : String) (v : Task)
    (hfresh : freshIdB s tempId = true) (hne : newId ≠ tempId) :
    freshIdB { tasks := setTask s.tasks newId v,
               boards := s.boards.map (createBoardAdd d newId) } tempId = true := by
  unfold freshIdB at hfresh ⊢
  dsimp only at hfresh ⊢
  rw [Bool.and_eq_true] at hfresh ⊢
  obtain ⟨h1, h2⟩ := hfresh
  rw [Bool.not_eq_true'] at h1
  constructor
  · rw [Bool.not_eq_true']
    exact setTask_any_fresh s.tasks newId tempId v h1 hne
  · rw [List.all_eq_true] at h2 ⊢
    intro b' hb'
    obtain ⟨b, hbmem, hfb⟩ := List.mem_map.mp hb'
    subst hfb
    rw [List.all_eq_true]
    intro c hc
    rw [Bool.not_eq_true']
    refine add_board_columns_fresh d newId tempId hne b ?_ c hc
    intro c0 hc0
    have hball := h2 b hbmem
    rw [List.all_eq_true] at hball
    have := hball c0 hc0
    rw [Bool.not_eq_true'] at this
    exact this

theorem createTask_success_state (s : StoreState) (d : CreateData)
    (tempId : String) (resp : ServerTask)
    (hfresh : freshIdB s tempId = true)
    (hboard : resp.boardId = d.boardId) (hstatus : resp.status = d.columnId) :
    (createTaskRun s d tempId (Except.ok resp)).1
      = { tasks := setTask s.tasks resp._id (serverTask resp),
          boards := s.boards.map (createBoardAdd d resp._id) } := by
  show createTaskSuccess (createTaskOptimistic s d tempId) tempId resp = _
  have h1' : s.tasks.any (fun p => p.1 == tempId) = false := by
    unfold freshIdB at hfresh
    rw [Bool.and_eq_true] at hfresh
    have := hfresh.1
    rw [Bool.not_eq_true'] at this
    exact this
  unfold createTaskSuccess createTaskOptimistic
  dsimp only
  congr 1
  · rw [setTask_of_any_false s.tasks tempId _ h1',
      eraseTask_append_fresh s.tasks tempId _ h1']
    rfl
  · rw [List.map_map]
    apply List.map_congr_left
    intro b hbmem
    show createBoardSwap resp.boardId resp.status tempId resp._id
        (createBoardAdd d tempId b) = createBoardAdd d resp._id b
    rw [hboard, hstatus]
    apply swap_add_board
    intro c hc hmem
    unfold freshIdB at hfresh
    rw [Bool.and_eq_true] at hfresh
    have h2 := hfresh.2
    rw [List.all_eq_true] at h2
    have hball := h2 b hbmem
    rw [List.all_eq_true] at hball
    have := hball c hc
    rw [Bool.not_eq_true'] at this
    simp_all

/-- C4: `createTask` appends the optimistic task at the tail of the target
column, and on durable-write success the temporary id is replaced by the
server's authoritative id in the task map and in every column list that
referenced it, in place: the final state contains the temporary id nowhere
(`freshIdB`), and the authoritative id occupies the exact list position the
temporary id held — the target column goes from `l` to `l ++ [tempId]`
optimistically and ends as `l ++ [resp._id]`.  Hypotheses: the temp id is
fresh, the server echoes the requested board and column
(`createTask` sends `status: data.columnId`), and the authoritative id
differs from the temp id. -/
theorem createTask_temp_swap (s : StoreState) (d : CreateData)
    (tempId : String) (resp : ServerTask)
    (hfresh : freshIdB s tempId = true)
    (hboard : resp.boardId = d.boardId) (hstatus : resp.status = d.columnId)
    (hnew : resp._id ≠ tempId) :
    (∀ l, colTaskIds s d.boardId d.columnId = some l →
        colTaskIds (createTaskOptimistic s d tempId) d.boardId d.columnId
          = some (l ++ [tempId]))
    ∧ freshIdB (createTaskRun s d tempId (Except.ok resp)).1 tempId = true
    ∧ (∀ l, colTaskIds s d.boardId d.columnId = some l →
        colTaskIds (createTaskRun s d tempId (Except.ok resp)).1
            d.boardId d.columnId
          = some (l ++ [resp._id])) := by
  refine ⟨?_, ?_, ?_⟩
  · intro l hl
    exact colTaskIds_map_add s.tasks
      (setTask s.tasks tempId (optimisticTask d tempId)) s.boards d tempId l hl
  · rw [createTask_success_state s d tempId resp hfresh hboard hstatus]
    exact freshIdB_result s d tempId resp._id (serverTask resp) hfresh hnew
  · intro l hl
    rw [createTask_success_state s d tempId resp hfresh hboard hstatus]
    exact colTaskIds_map_add s.tasks
      (setTask s.tasks resp._id (serverTask resp)) s.boards d resp._id l hl

theorem createTask_temp_swap_witness :
    (freshIdB sampleState "temp-123" = true
      ∧ colTaskIds sampleState "B1" "todo" = some ["t1", "t2"])
    ∧ (colTaskIds (createTaskOptimistic sampleState
          { boardId := "B1", columnId := "todo", title := "New task" } "temp-123")
          "B1" "todo" = some ["t1", "t2", "temp-123"]
      ∧ freshIdB (createTaskRun sampleState
          { boardId := "B1", columnId := "todo", title := "New task" } "temp-123"
          (Except.ok { _id := "t99", boardId := "B1", status := "todo",
                       title := "New task" })).1 "temp-123" = true
      ∧ colTaskIds (createTaskRun sampleState
          { boardId := "B1", columnId := "todo", title := "New task" } "temp-123"
          (Except.ok { _id := "t99", boardId := "B1", status := "todo",
                       title := "New task" })).1 "B1" "todo"
        = some ["t1", "t2", "t99"]) :=
  ⟨⟨by decide, by decide⟩,
    ⟨(createTask_temp_swap sampleState
        { boardId := "B1", columnId := "todo", title := "New task" } "temp-123"
        { _id := "t99", boardId := "B1", status := "todo", title := "New task" }
        (by decide) (by decide) (by decide) (by decide)).1
      ["t1", "t2"] (by decide),
     (createTask_temp_swap sampleState
        { boardId := "B1", columnId := "todo", title := "New task" } "temp-123"
        { _id := "t99", boardId := "B1", status := "todo", title := "New task" }
        (by decide) (by decide) (by decide) (by decide)).2.1,
     (createTask_temp_swap sampleState
        { boardId := "B1", columnId := "todo", title := "New task" } "temp-123"
        { _id := "t99", boardId := "B1", status := "todo", title := "New task" }
        (by decide) (by decide) (by decide) (by decide)).2.2
      ["t1", "t2"] (by decide)⟩⟩

/-! ### Column-partition preservation (claim C1) -/

theorem count_split (l : List String) (i : Nat) (x : String) :
    l.count x = (l.take i).count x + (l.drop i).count x := by
  conv_lhs => rw [← List.take_append_drop i l]
  rw [List.count_append]

theorem count_jsSplice_self (l : List String) (i : Nat) (a : String) :
    (jsSplice l i a).count a = l.count a + 1 := by
  unfold jsSplice
  rw [List.count_append, List.count_cons, count_split l i a]
  simp
  omega

theorem count_jsSplice_other (l : List String) (i : Nat) (a x : String)
    (h : ¬a = x) :
    (jsSplice l i a).count x = l.count x := by
  unfold jsSplice
  rw [List.count_append, List.count_cons, count_split l i x]
  simp [h]

theorem count_filter_self (l : List String) (t : String) :
    (l.filter (fun id => id != t)).count t = 0 := by
  rw [List.count_eq_zero]
  intro hmem
  rw [List.mem_filter] at hmem
  simp at hmem

theorem count_filter_other (l : List String) (t x : String) (h : ¬x = t) :
    (l.filter (fun id => id != t)).count x = l.count x :=
  List.count_filter (by simp [h])

theorem count_moveIds_self (tid src dst : String) (i : Nat) (cid : String)
    (l : List String) (hsafe : (cid == src) = false → l.count tid = 0) :
    (moveIds tid src dst i cid l).count tid
      = (if (cid == dst) = true then 1 else 0) := by
  unfold moveIds
  by_cases hs : (cid == src) = true
  · by_cases hd : (cid == dst) = true
    · rw [if_pos (by rw [hs, hd]; rfl), count_jsSplice_self, count_filter_self,
        if_pos hd]
    · have hd' : (cid == dst) = false := (Bool.not_eq_true _) ▸ hd
      have hcond : (cid == src && cid == dst) = false := by
        rw [hd', Bool.and_false]
      rw [if_neg (by rw [hcond]; simp), if_pos hs, count_filter_self, if_neg hd]
  · have hs' : (cid == src) = false := (Bool.not_eq_true _) ▸ hs
    have hcond : (cid == src && cid == dst) = false := by
      rw [hs', Bool.false_and]
    by_cases hd : (cid == dst) = true
    · rw [if_neg (by rw [hcond]; simp), if_neg (by rw [hs']; simp), if_pos hd,
        count_jsSplice_self, count_filter_self, if_pos hd]
    · rw [if_neg (by rw [hcond]; simp), if_neg (by rw [hs']; simp),
        if_neg hd, if_neg hd]
      exact hsafe hs'

theorem count_moveIds_other (tid src dst : String) (i : Nat) (cid : String)
    (l : List String) (x : String) (hx : ¬tid = x) :
    (moveIds tid src dst i cid l).count x = l.count x := by
  have hxt : ¬x = tid := fun he => hx he.symm
  unfold moveIds
  by_cases h1 : (cid == src && cid == dst) = true
  · rw [if_pos h1, count_jsSplice_other _ _ _ _ hx, count_filter_other _ _ _ hxt]
  · rw [if_neg h1]
    by_cases h2 : (cid == src) = true
    · rw [if_pos h2, count_filter_other _ _ _ hxt]
    · rw [if_neg h2]
      by_cases h3 : (cid == dst) = true
      · rw [if_pos h3, count_jsSplice_other _ _ _ _ hx,
          count_filter_other _ _ _ hxt]
      · rw [if_neg h3]

theorem moveColumnStep_taskIds (tid src dst : String) (i : Nat) (c : Column) :
    (moveColumnStep tid src dst i c).taskIds
      = moveIds tid src dst i c.id c.taskIds := by
  rw [moveColumnStep_eq]

theorem sum_ite_count (cols : List Column) (dst : String) :
    (cols.map (fun c => if (c.id == dst) = true then 1 else 0)).sum
      = cols.countP (fun c => c.id == dst) := by
  induction cols with
  | nil => rfl
  | cons c cs ih =>
    by_cases h : (c.id == dst) = true
    · rw [List.map_cons, List.sum_cons, ih, List.countP_cons, if_pos h]
      omega
    · rw [List.map_cons, List.sum_cons, ih, List.countP_cons, if_neg h]
      omega

theorem contains_false_countP_zero (cols : List Column) (x : String)
    (h : ((cols.map (fun c => c.id)).contains x) = false) :
    cols.countP (fun c => c.id == x) = 0 := by
  rw [List.countP_eq_zero]
  intro c hc hpc
  have hmemid : c.id ∈ cols.map (fun c => c.id) := List.mem_map_of_mem _ hc
  rw [eq_of_beq hpc] at hmemid
  simp_all

theorem countP_nodup_one (cols : List Column) (dst : String)
    (hnodup : nodupIds (cols.map (fun c => c.id)) = true)
    (hdst : cols.any (fun c => c.id == dst) = true) :
    cols.countP (fun c => c.id == dst) = 1 := by
  induction cols with
  | nil => simp at hdst
  | cons c cs ih =>
    rw [List.map_cons] at hnodup
    simp only [nodupIds] at hnodup
    rw [Bool.and_eq_true] at hnodup
    obtain ⟨hnc, hncs⟩ := hnodup
    rw [Bool.not_eq_true'] at hnc
    rw [List.countP_cons]
    rw [List.any_cons] at hdst
    by_cases h : (c.id == dst) = true
    · rw [if_pos h]
      have hz : cs.countP (fun c => c.id == dst) = 0 := by
        apply contains_false_countP_zero
        rw [← eq_of_beq h]
        exact hnc
      omega
    · rw [if_neg h]
      apply ih hncs
      have h' : (c.id == dst) = false := (Bool.not_eq_true _) ▸ h
      rw [h', Bool.false_or] at hdst
      exact hdst

theorem occ_moveColumns_self (tid src dst : String) (i : Nat)
    (cols : List Column)
    (hsrc : cols.all (fun c => !(c.taskIds.contains tid) || (c.id == src)) = true)
    (hnodup : nodupIds (cols.map (fun c => c.id)) = true)
    (hdst : cols.any (fun c => c.id == dst) = true) :
    ((moveColumns tid src dst i cols).map (fun c => c.taskIds.count tid)).sum
      = 1 := by
  unfold moveColumns
  rw [List.map_map]
  have hcong : ∀ c ∈ cols,
      ((fun c => c.taskIds.count tid) ∘ moveColumnStep tid src dst i) c
        = (fun c => if (c.id == dst) = true then 1 else 0) c := by
    intro c hc
    show (moveColumnStep tid src dst i c).taskIds.count tid = _
    rw [moveColumnStep_taskIds]
    apply count_moveIds_self
    intro hs'
    rw [List.all_eq_true] at hsrc
    have hco := hsrc c hc
    rw [hs', Bool.or_false, Bool.not_eq_true'] at hco
    rw [List.count_eq_zero]
    simpa using hco
  rw [List.map_congr_left hcong, sum_ite_count cols dst]
  exact countP_nodup_one cols dst hnodup hdst

theorem occ_moveColumns_other (tid src dst : String) (i : Nat)
    (cols : List Column) (x : String) (hx : ¬tid = x) :
    ((moveColumns tid src dst i cols).map (fun c => c.taskIds.count x)).sum
      = (cols.map (fun c => c.taskIds.count x)).sum := by
  unfold moveColumns
  rw [List.map_map]
  have hcong : ∀ c ∈ cols,
      ((fun c => c.taskIds.count x) ∘ moveColumnStep tid src dst i) c
        = (fun c => c.taskIds.count x) c := by
    intro c _
    show (moveColumnStep tid src dst i c).taskIds.count x = c.taskIds.count x
    rw [moveColumnStep_taskIds]
    exact count_moveIds_other tid src dst i c.id c.taskIds x hx
  rw [List.map_congr_left hcong]

theorem occ_moveBoardStep_self (tid src dst : String) (i : Nat) (bid : String)
    (b : Board) (hbb : (b.id == bid) = true)
    (hsrc : b.columns.all (fun c => !(c.taskIds.contains tid) || (c.id == src)) = true)
    (hnodupb : nodupIds (b.columns.map (fun c => c.id)) = true)
    (hdst : b.columns.any (fun c => c.id == dst) = true) :
    occInBoard (moveBoardStep tid src dst i bid b) tid = 1 := by
  rw [moveBoardStep_eq]
  unfold occInBoard
  dsimp only
  have hcond : (b.id != bid) = false := by simp [eq_of_beq hbb]
  rw [hcond, if_neg (by simp)]
  exact occ_moveColumns_self tid src dst i b.columns hsrc hnodupb hdst

theorem occ_moveBoardStep_other (tid src dst : String) (i : Nat) (bid : String)
    (b : Board) (x : String) (hx : ¬tid = x) :
    occInBoard (moveBoardStep tid src dst i bid b) x = occInBoard b x := by
  rw [moveBoardStep_eq]
  unfold occInBoard
  dsimp only
  by_cases h : (b.id != bid) = true
  · rw [if_pos h]
  · rw [if_neg h]
    exact occ_moveColumns_other tid src dst i b.columns x hx

theorem moveBoardStep_columns_ids (tid src dst : String) (i : Nat)
    (bid : String) (b : Board) :
    (moveBoardStep tid src dst i bid b).columns.map (fun c => c.id)
      = b.columns.map (fun c => c.id) := by
  rw [moveBoardStep_eq]
  dsimp only
  by_cases h : (b.id != bid) = true
  · rw [if_pos h]
  · rw [if_neg h]
    unfold moveColumns
    rw [List.map_map]
    apply List.map_congr_left
    intro c _
    exact moveColumnStep_id tid src dst i c

theorem lookup_some_any (m : TaskMap) (k : String) (t : Task)
    (h : lookupTask m k = some t) : m.any (fun p => p.1 == k) = true := by
  unfold lookupTask at h
  cases hf : m.find? (fun p => p.1 == k) with
  | none => rw [hf] at h; cases h
  | some p =>
    have hp := List.find?_some hf
    exact List.any_eq_true.mpr ⟨p, List.mem_of_find?_eq_some hf, hp⟩

theorem validMoveB_of_some (s : StoreState) (tid src dst : String) (t : Task)
    (b0 : Board) (h1 : lookupTask s.tasks tid = some t)
    (hb : s.boards.find? (fun bb => bb.id == t.boardId) = some b0)
    (hv : validMoveB s tid src dst = true) :
    s.boards.all (fun b => !(b.id == t.boardId)
      || (b.columns.all (fun c => !(c.taskIds.contains tid) || (c.id == src))
          && b.columns.any (fun c => c.id == dst))) = true := by
  unfold validMoveB at hv
  rw [h1] at hv
  dsimp only at hv
  rw [hb] at hv
  exact hv

theorem moveTaskLocal_preserves_inv (s : StoreState) (tid src dst : String)
    (i : Nat) (hpart : tasksPartitionedB s = true)
    (hnodup : colIdsNodupB s = true)
    (hvalid : validMoveB s tid src dst = true) :
    tasksPartitionedB (moveTaskLocal s tid src dst i) = true
    ∧ colIdsNodupB (moveTaskLocal s tid src dst i) = true := by
  cases h1 : lookupTask s.tasks tid with
  | none =>
    rw [moveTaskLocal_of_none s tid src dst i h1]
    exact ⟨hpart, hnodup⟩
  | some t =>
    cases hb : s.boards.find? (fun bb => bb.id == t.boardId) with
    | none =>
      rw [moveTaskLocal_of_noBoard s tid src dst i t h1 hb]
      exact ⟨hpart, hnodup⟩
    | some b0 =>
      rw [moveTaskLocal_of_some s tid src dst i t b0 h1 hb]
      have hall := validMoveB_of_some s tid src dst t b0 h1 hb hvalid
      rw [List.all_eq_true] at hall
      have hany : s.tasks.any (fun p => p.1 == tid) = true :=
        lookup_some_any s.tasks tid t h1
      constructor
      · unfold tasksPartitionedB at hpart ⊢
        dsimp only
        rw [List.all_eq_true] at hpart ⊢
        intro p' hp'
        rw [setTask_of_any_true s.tasks tid _ hany] at hp'
        obtain ⟨p, hp, hfp⟩ := List.mem_map.mp hp'
        rw [List.all_eq_true]
        intro b' hb'
        obtain ⟨b, hbm, hfb⟩ := List.mem_map.mp hb'
        rw [← hfb, ← hfp]
        by_cases hptid : (p.1 == tid) = true
        · rw [if_pos hptid]
          dsimp only
          rw [moveBoardStep_id]
          by_cases hbb : (b.id == t.boardId) = true
          · have hbrest := hall b hbm
            rw [hbb, Bool.not_true, Bool.false_or, Bool.and_eq_true] at hbrest
            obtain ⟨hsrcb, hdstb⟩ := hbrest
            have hnodupb : nodupIds (b.columns.map (fun c => c.id)) = true := by
              unfold colIdsNodupB at hnodup
              rw [List.all_eq_true] at hnodup
              exact hnodup b hbm
            rw [hbb, Bool.not_true, Bool.false_or,
              occ_moveBoardStep_self tid src dst i t.boardId b hbb hsrcb
                hnodupb hdstb]
            rfl
          · have hbb' : (b.id == t.boardId) = false := (Bool.not_eq_true _) ▸ hbb
            rw [hbb', Bool.not_false, Bool.true_or]
        · rw [if_neg hptid]
          have hne : ¬tid = p.1 := by
            intro he
            rw [he] at hptid
            simp at hptid
          have hprev := hpart p hp
          rw [List.all_eq_true] at hprev
          have hpb := hprev b hbm
          rw [moveBoardStep_id, occ_moveBoardStep_other tid src dst i
            t.boardId b p.1 hne]
          exact hpb
      · unfold colIdsNodupB at hnodup ⊢
        dsimp only
        rw [List.all_eq_true] at hnodup ⊢
        intro b' hb'
        obtain ⟨b, hbm, hfb⟩ := List.mem_map.mp hb'
        rw [← hfb, moveBoardStep_columns_ids]
        exact hnodup b hbm

/-- C1 counterexample: the claim quantifies over EVERY sequence of
`moveTask` calls.  A call whose `sourceColumnId` is not the column actually
containing the task breaks the invariant: with `t1` in `todo`, calling
`moveTask(t1, "in-progress", "done", 0)` leaves `t1` in `todo` AND inserts
it into `done` — the task now occurs in two column lists. -/
theorem move_mismatched_source_cex :
    tasksPartitionedB mismatchedSourceState = true
    ∧ tasksPartitionedB
        (moveTaskLocal mismatchedSourceState "t1" "in-progress" "done" 0)
      = false := by
  decide

/-- C1 (amended): for every starting projection in which each taskId occurs
in exactly one column list of each board carrying its boardId (and column
ids are unique per board), and every sequence of `moveTask` calls that are
well-sourced — each call's `sourceColumnId` is the column currently
containing the task and its `destColumnId` names an existing column of the
task's board (no-op calls on unknown tasks/boards allowed) — every taskId
still belongs to exactly one column list after the sequence, and each call
is a single state transition (`moveTaskLocal` is one pure update embedding
the single `set` call) that sets the moved task's `columnId` (and `status`)
to the destination in that same transition. -/
theorem moveTask_preserves_partition (s : StoreState) (calls : List MoveCall)
    (hpart : tasksPartitionedB s = true) (hnodup : colIdsNodupB s = true)
    (hvalid : validSeqB s calls = true) :
    tasksPartitionedB (applyMoves s calls) = true
    ∧ colIdsNodupB (applyMoves s calls) = true
    ∧ (∀ (tid src dst : String) (i : Nat) (t : Task),
        lookupTask s.tasks tid = some t →
        (s.boards.find? (fun b => b.id == t.boardId)).isSome = true →
        ∃ t', lookupTask (moveTaskLocal s tid src dst i).tasks tid = some t'
          ∧ t'.columnId = dst ∧ t'.status = some dst) := by
  have main : ∀ (cs : List MoveCall) (s0 : StoreState),
      tasksPartitionedB s0 = true → colIdsNodupB s0 = true →
      validSeqB s0 cs = true →
      tasksPartitionedB (applyMoves s0 cs) = true
      ∧ colIdsNodupB (applyMoves s0 cs) = true := by
    intro cs
    induction cs with
    | nil => intro s0 hp hn _; exact ⟨hp, hn⟩
    | cons c rest ih =>
      intro s0 hp hn hv
      unfold validSeqB at hv
      rw [Bool.and_eq_true] at hv
      obtain ⟨hv1, hv2⟩ := hv
      have hstep := moveTaskLocal_preserves_inv s0 c.taskId c.src c.dst
        c.destIndex hp hn hv1
      exact ih (applyMove s0 c) hstep.1 hstep.2 hv2
  refine ⟨(main calls s hpart hnodup hvalid).1,
    (main calls s hpart hnodup hvalid).2, ?_⟩
  intro tid src dst i t h1 hbs
  obtain ⟨b0, hb⟩ := Option.isSome_iff_exists.mp hbs
  rw [moveTaskLocal_of_some s tid src dst i t b0 h1 hb]
  exact ⟨_, lookup_setTask_self s.tasks tid _, rfl, rfl⟩

theorem moveTask_preserves_partition_witness :
    (tasksPartitionedB sampleState = true
      ∧ colIdsNodupB sampleState = true
      ∧ validSeqB sampleState
          [{ taskId := "t1", src := "todo", dst := "done", destIndex := 0 }] = true)
    ∧ tasksPartitionedB
        (applyMoves sampleState
          [{ taskId := "t1", src := "todo", dst := "done", destIndex := 0 }])
      = true :=
  ⟨⟨by decide, by decide, by decide⟩,
    (moveTask_preserves_partition sampleState
      [{ taskId := "t1", src := "todo", dst := "done", destIndex := 0 }]
      (by decide) (by decide) (by decide)).1⟩

end TaskFlow
